import Mathlib

/-!
Shallow embedding of `container-build/stages/missing_deps.py`.

The script is a single `main` that
  1. builds an ignore set from `--ignore` names and an optional `--ignore-file`,
  2. loads `pyproject.toml` and collects declared requirement strings
     (`iter_declared_requirements`),
  3. for each raw requirement string: parses it (`packaging.requirements.Requirement`),
     skips it if its canonical name is ignored, skips it if its PEP 508 marker
     evaluates false (`marker_applies`), otherwise checks installation
     (`is_installed`) and optionally prints a diagnostic line to stderr,
  4. prints the missing raw strings to stdout, sorted by canonical name, and
     returns 0.

External collaborators (the TOML parser, `packaging`'s requirement parser and
marker evaluator, and `importlib.metadata`'s installed-distribution index) are
modelled abstractly by an `Env` record of functions; the script's own logic is
translated function by function.  `canonicalize_name` (PEP 503: lower-case the
name and collapse every run of `-`, `_`, `.` to a single `-`) is implemented
concretely since sort order and ignore membership depend on it.
-/

namespace MissingDeps

/-! ### Canonical names (`packaging.utils.canonicalize_name`) -/

/-- Characters treated as name separators by PEP 503 normalization
(the regex class in `re.sub(r"[-_.]+", "-", name)`). -/
def isNameSep (c : Char) : Bool := c == '-' || c == '_' || c == '.'

/-- Replace a separator character by `-`; lower-case anything else.
Package names are ASCII (PEP 508), so ASCII lower-casing matches `str.lower`. -/
def sepToDash (c : Char) : Char := if isNameSep c then '-' else c.toLower

/-- Collapse every run of consecutive `-` characters to a single `-`. -/
def collapseDashes : List Char → List Char
  | [] => []
  | [c] => [c]
  | c₁ :: c₂ :: rest =>
    if c₁ == '-' && c₂ == '-' then collapseDashes (c₂ :: rest)
    else c₁ :: collapseDashes (c₂ :: rest)

/-- `canonicalize_name(name)` = `re.sub(r"[-_.]+", "-", name).lower()`:
map separators to `-` and lower-case, then collapse runs of `-`
(a run of separators becomes a run of dashes, hence a single dash). -/
def canonicalize_name (s : String) : String :=
  String.mk (collapseDashes (s.data.map sepToDash))

/-! ### Requirements and the ambient environment -/

/-- Result of `packaging.requirements.Requirement(raw)`: the declared
distribution name, the raw specifier text (never interpreted by this script)
and the optional PEP 508 marker expression. -/
structure Requirement where
  name : String
  specifier : String
  marker : Option String
deriving DecidableEq

/-- The external collaborators of the script:
`parseReq` is `packaging.requirements.Requirement` (`none` = the constructor
raises `InvalidRequirement`); `evalMarker` is `Marker.evaluate()` against the
current execution environment; `installedVersion` is
`importlib.metadata.version` (`none` = `PackageNotFoundError`).
All three are functions, i.e. deterministic during one run, which is how the
script uses them. -/
structure Env where
  parseReq : String → Option Requirement
  evalMarker : String → Bool
  installedVersion : String → Option String

/-- `marker_applies(req)`: a requirement with no marker applies universally;
otherwise the marker is evaluated against the current environment. -/
def marker_applies (env : Env) (req : Requirement) : Bool :=
  match req.marker with
  | none => true
  | some m => env.evalMarker m

/-- `is_installed(dist_name)`: `metadata.version(dist_name)` succeeds
(distribution present in the installed index) vs raises
`PackageNotFoundError`.  Only presence is consulted. -/
def is_installed (env : Env) (dist_name : String) : Bool :=
  (env.installedVersion dist_name).isSome

/-! ### The manifest and `iter_declared_requirements` -/

/-- The `[project]` table of `pyproject.toml`, restricted to the two keys the
script reads.  `optional-dependencies` is a mapping from group name to
dependency list, modelled as an association list with `List.lookup`
(TOML tables have unique keys). -/
structure ProjectTable where
  dependencies : Option (List String)
  optionalDependencies : Option (List (String × List String))

/-- A parsed `pyproject.toml`, restricted to the `project` table. -/
structure Pyproject where
  project : Option ProjectTable

/-- `iter_declared_requirements(pyproject, extras)`: start from the base
`project.dependencies` list and extend with each requested extra group's list
in request order.  `.get(key, default)` is `Option.getD`; the Python `or []`
only re-defaults falsy values and is covered by the same `getD []`. -/
def iter_declared_requirements (pyproject : Pyproject) (extras : List String) : List String :=
  let project := pyproject.project.getD ⟨none, none⟩
  let base := project.dependencies.getD []
  let opt := project.optionalDependencies.getD []
  extras.foldl (fun reqs extra => reqs ++ ((opt.lookup extra).getD [])) base

/-! ### CLI arguments and the ignore set -/

/-- The parsed command line, with file contents inlined: `pyproject` is the
already-loaded manifest and `ignoreFile` is `some` of the file's lines when
`--ignore-file` was given.  (Loading itself — `tomllib.load` and `open` — is
I/O outside the embedded logic; both failures are fatal before any output.) -/
structure Args where
  pyproject : Pyproject
  extras : List String
  ignores : List String
  ignoreFile : Option (List String)
  printInstalled : Bool

/-- `line.strip()`: remove leading and trailing whitespace. -/
def pyStrip (s : String) : String :=
  String.mk (((s.data.dropWhile Char.isWhitespace).reverse.dropWhile Char.isWhitespace).reverse)

/-- `line.startswith("#")` as applied to an already-stripped line. -/
def startsWithHash (s : String) : Bool :=
  match s.data with
  | [] => false
  | c :: _ => c == '#'

/-- The `--ignore-file` loop: strip each line, skip empty and `#`-comment
lines, canonicalize and add the rest. -/
def ignoreFromLines : List String → List String
  | [] => []
  | line :: rest =>
    if pyStrip line = "" ∨ startsWithHash (pyStrip line) = true then ignoreFromLines rest
    else canonicalize_name (pyStrip line) :: ignoreFromLines rest

/-- The ignore set: canonicalized `--ignore` names plus, when `--ignore-file`
was given, the canonicalized surviving lines of the file.  A Python `set` is
only ever consulted for membership here, so a list with `contains` is a
faithful model. -/
def buildIgnoreSet (args : Args) : List String :=
  args.ignores.map canonicalize_name ++
    (match args.ignoreFile with
     | none => []
     | some lines => ignoreFromLines lines)

/-! ### The evaluation loop of `main` -/

/-- The stderr line printed for one package under `--print-installed`:
`f"{req.name}=={ver} (installed)"` or `f"{req.name} (missing)"`.  In the
installed case the script re-queries `metadata.version(req.name)`, which is
`some` there, so the `getD` default is never the value used. -/
def diagLine (env : Env) (req : Requirement) (installed : Bool) : String :=
  if installed then
    req.name ++ "==" ++ (env.installedVersion req.name).getD "" ++ " (installed)"
  else
    req.name ++ " (missing)"

/-- The `for raw in declared` loop of `main`.  Returns
`.ok (missing_lines, stderr_lines)` in evaluation order, or `.error ds` when
`Requirement(raw)` raises on some entry — `ds` being the stderr lines already
printed before the exception, after which the run aborts. -/
def evalLoop (env : Env) (ignore : List String) (pi : Bool) :
    List String → Except (List String) (List String × List String)
  | [] => .ok ([], [])
  | raw :: rest =>
    match env.parseReq raw with
    | none => .error []
    | some req =>
      if ignore.contains (canonicalize_name req.name) then evalLoop env ignore pi rest
      else if marker_applies env req = false then evalLoop env ignore pi rest
      else
        let installed := is_installed env req.name
        let d := if pi then [diagLine env req installed] else []
        match evalLoop env ignore pi rest with
        | .error ds => .error (d ++ ds)
        | .ok (missing, diags) =>
          .ok ((if installed then missing else raw :: missing), d ++ diags)

/-! ### The sort at the end of `main` -/

/-- Code-point lexicographic order on character lists — Python's `<=` on
strings, used by `sorted` to compare keys. -/
def lexLe : List Char → List Char → Bool
  | [], _ => true
  | _ :: _, [] => false
  | a :: as, b :: bs =>
    if a.toNat < b.toNat then true
    else if b.toNat < a.toNat then false
    else lexLe as bs

/-- Python string comparison `s <= t`. -/
def strLe (s t : String) : Bool := lexLe s.data t.data

/-- The sort key `canonicalize_name(Requirement(s).name)` of
`sorted(missing_lines, key=...)`.  Every string `main` sorts was already
parsed successfully in the loop and `parseReq` is a function, so the `none`
branch is unreachable on those strings. -/
def sortKey (env : Env) (s : String) : String :=
  match env.parseReq s with
  | some r => canonicalize_name r.name
  | none => ""

/-- The comparison `sorted` performs between two missing lines. -/
def keyLe (env : Env) (a b : String) : Prop :=
  strLe (sortKey env a) (sortKey env b) = true

instance (env : Env) : DecidableRel (keyLe env) := fun a b =>
  inferInstanceAs (Decidable (strLe (sortKey env a) (sortKey env b) = true))

/-! ### `main` and the process wrapper -/

/-- Observable result of a completed run: the stdout lines, the stderr lines
and the process exit code. -/
structure Output where
  stdout : List String
  stderr : List String
  exitCode : Nat
deriving DecidableEq

/-- The body of `main` after argument parsing: build the ignore set, collect
the declared requirements, run the loop, and on success print the missing
lines sorted by canonical name (Python's `sorted` is a stable sort by key;
for the total preorder `keyLe` the stable sorted permutation is unique, so
stable `insertionSort` is observationally the same sort) and return 0. -/
def missing_deps_main (env : Env) (args : Args) : Except (List String) Output :=
  let ignore := buildIgnoreSet args
  let declared := iter_declared_requirements args.pyproject args.extras
  match evalLoop env ignore args.printInstalled declared with
  | .error ds => .error ds
  | .ok (missing, diags) =>
    .ok { stdout := List.insertionSort (keyLe env) missing
          stderr := diags
          exitCode := 0 }

/-- `raise SystemExit(main())` plus CPython's behaviour on an uncaught
exception inside `main`: the sorted-output loop is after the evaluation loop,
so an aborted run has printed nothing to stdout and exits nonzero (1). -/
def run (env : Env) (args : Args) : Output :=
  match missing_deps_main env args with
  | .ok o => o
  | .error ds => { stdout := [], stderr := ds, exitCode := 1 }

/-! ### Spec-side descriptions used to state the claims -/

/-- A raw requirement string ends up on the missing list exactly when it
parses, its canonical name is not ignored, its marker applies, and its
distribution is absent from the installed index. -/
def keeps (env : Env) (ignore : List String) (raw : String) : Bool :=
  match env.parseReq raw with
  | none => false
  | some req =>
    !(ignore.contains (canonicalize_name req.name)) &&
      marker_applies env req && !(is_installed env req.name)

/-- The stderr lines one raw requirement string contributes. -/
def diagsFor (env : Env) (ignore : List String) (pi : Bool) (raw : String) : List String :=
  match env.parseReq raw with
  | none => []
  | some req =>
    if ignore.contains (canonicalize_name req.name) then []
    else if marker_applies env req = false then []
    else if pi then [diagLine env req (is_installed env req.name)] else []

/-! ### Concrete fixtures for evaluating the definitions -/

/-- A concrete environment: `rich` is installed at 13.7.1, nothing else is;
markers evaluate false (a modern interpreter, so `python_version < "3.0"` is
false); five well-formed requirement strings parse, everything else raises. -/
def envW : Env :=
  { parseReq := fun s =>
      if s = "requests>=2.0" then some ⟨"requests", ">=2.0", none⟩
      else if s = "rich" then some ⟨"rich", "", none⟩
      else if s = "Foo_Bar==1.0" then some ⟨"Foo_Bar", "==1.0", none⟩
      else if s = "old" then some ⟨"old", "", none⟩
      else if s = "legacy; python_version < \"3.0\"" then
        some ⟨"legacy", "", some "python_version < \"3.0\""⟩
      else none
    evalMarker := fun _ => false
    installedVersion := fun n => if n = "rich" then some "13.7.1" else none }

/-- A concrete command line: a manifest with two base dependencies and a
`dev` extra group, `--extra dev --ignore foo.bar --print-installed`, and an
ignore file containing a comment line, a blank line and `old`. -/
def argsW : Args :=
  { pyproject := ⟨some ⟨some ["rich", "requests>=2.0"],
      some [("dev", ["Foo_Bar==1.0", "legacy; python_version < \"3.0\""])]⟩⟩
    extras := ["dev"]
    ignores := ["foo.bar"]
    ignoreFile := some ["  # comment", "   ", "old"]
    printInstalled := true }

/-- Like `argsW` but with the base dependencies declared in the other order. -/
def argsW2 : Args :=
  { pyproject := ⟨some ⟨some ["requests>=2.0", "rich"],
      some [("dev", ["Foo_Bar==1.0", "legacy; python_version < \"3.0\""])]⟩⟩
    extras := ["dev"]
    ignores := ["foo.bar"]
    ignoreFile := some ["  # comment", "   ", "old"]
    printInstalled := true }

/-- A command line whose manifest contains a malformed requirement string
after a well-formed one. -/
def argsE : Args :=
  { pyproject := ⟨some ⟨some ["rich", "bad(("], none⟩⟩
    extras := []
    ignores := []
    ignoreFile := none
    printInstalled := true }

/-- A command line with an empty base-dependency list and no extras. -/
def argsEmpty : Args :=
  { pyproject := ⟨some ⟨some [], some [("dev", ["Foo_Bar==1.0"])]⟩⟩
    extras := []
    ignores := []
    ignoreFile := none
    printInstalled := false }

/-! ### Properties of the sort order -/

theorem lexLe_total : ∀ a b : List Char, lexLe a b = true ∨ lexLe b a = true := by
  intro a
  induction a with
  | nil => intro b; left; rfl
  | cons x xs ih =>
    intro b
    cases b with
    | nil => right; rfl
    | cons y ys =>
      rcases Nat.lt_trichotomy x.toNat y.toNat with h | h | h
      · left; simp [lexLe, h]
      · rcases ih ys with hh | hh
        · left; simp [lexLe, h, hh]
        · right; simp [lexLe, h.symm, hh]
      · right; simp [lexLe, h]

theorem lexLe_trans : ∀ a b c : List Char,
    lexLe a b = true → lexLe b c = true → lexLe a c = true := by
  intro a
  induction a with
  | nil => intro b c _ _; rfl
  | cons x xs ih =>
    intro b c hab hbc
    cases b with
    | nil => simp [lexLe] at hab
    | cons y ys =>
      cases c with
      | nil => simp [lexLe] at hbc
      | cons z zs =>
        simp only [lexLe] at hab hbc ⊢
        rcases Nat.lt_trichotomy x.toNat y.toNat with hxy | hxy | hxy
        · rcases Nat.lt_trichotomy y.toNat z.toNat with hyz | hyz | hyz
          · simp [Nat.lt_trans hxy hyz]
          · simp [hyz ▸ hxy]
          · simp [hyz, Nat.lt_asymm hyz] at hbc
        · rcases Nat.lt_trichotomy y.toNat z.toNat with hyz | hyz | hyz
          · simp [hxy ▸ hyz]
          · rw [hxy] at hab
            rw [hyz] at hbc
            simp at hab hbc
            simp [hxy.trans hyz, ih ys zs hab hbc]
          · simp [hyz, Nat.lt_asymm hyz] at hbc
        · simp [hxy, Nat.lt_asymm hxy] at hab

instance (env : Env) : IsTotal String (keyLe env) :=
  ⟨fun a b => lexLe_total (sortKey env a).data (sortKey env b).data⟩

instance (env : Env) : IsTrans String (keyLe env) :=
  ⟨fun a b c hab hbc =>
    lexLe_trans (sortKey env a).data (sortKey env b).data (sortKey env c).data hab hbc⟩

/-! ### Characterizing the evaluation loop -/

theorem evalLoop_ok_of_all_parse (env : Env) (ignore : List String) (pi : Bool) :
    ∀ l : List String, (∀ raw ∈ l, (env.parseReq raw).isSome) →
      evalLoop env ignore pi l =
        .ok (l.filter (keeps env ignore), l.flatMap (diagsFor env ignore pi)) := by
  intro l
  induction l with
  | nil => intro _; rfl
  | cons raw rest ih =>
    intro h
    obtain ⟨req, hp⟩ := Option.isSome_iff_exists.mp (h raw (List.mem_cons_self _ _))
    have hrest := ih fun r hr => h r (List.mem_cons_of_mem _ hr)
    cases hc : ignore.contains (canonicalize_name req.name) with
    | true =>
      have hc' : canonicalize_name req.name ∈ ignore := by simpa using hc
      simp [evalLoop, hp, hc, hc', hrest, keeps, diagsFor, List.filter_cons, List.flatMap_cons]
    | false =>
      have hc' : canonicalize_name req.name ∉ ignore := by simpa using hc
      cases hm : marker_applies env req with
      | false =>
        simp [evalLoop, hp, hc, hc', hm, hrest, keeps, diagsFor, List.filter_cons,
          List.flatMap_cons]
      | true =>
        cases hi : is_installed env req.name with
        | true =>
          simp [evalLoop, hp, hc, hc', hm, hi, hrest, keeps, diagsFor, List.filter_cons,
            List.flatMap_cons]
        | false =>
          simp [evalLoop, hp, hc, hc', hm, hi, hrest, keeps, diagsFor, List.filter_cons,
            List.flatMap_cons]

theorem evalLoop_cases (env : Env) (ignore : List String) (pi : Bool) :
    ∀ l : List String, (∀ raw ∈ l, (env.parseReq raw).isSome) ∨
      ∃ ds, evalLoop env ignore pi l = .error ds := by
  intro l
  induction l with
  | nil => left; simp
  | cons raw rest ih =>
    cases hp : env.parseReq raw with
    | none => exact .inr ⟨[], by simp [evalLoop, hp]⟩
    | some req =>
      rcases ih with hall | ⟨ds, hds⟩
      · left
        intro r hr
        rcases List.mem_cons.mp hr with rfl | hr'
        · simp [hp]
        · exact hall r hr'
      · right
        cases hc : ignore.contains (canonicalize_name req.name) with
        | true =>
          have hc' : canonicalize_name req.name ∈ ignore := by simpa using hc
          exact ⟨ds, by simp [evalLoop, hp, hc, hc', hds]⟩
        | false =>
          have hc' : canonicalize_name req.name ∉ ignore := by simpa using hc
          cases hm : marker_applies env req with
          | false => exact ⟨ds, by simp [evalLoop, hp, hc, hc', hm, hds]⟩
          | true =>
            refine ⟨(if pi then [diagLine env req (is_installed env req.name)] else []) ++ ds, ?_⟩
            simp [evalLoop, hp, hc, hc', hm, hds]

theorem evalLoop_error_append (env : Env) (ignore : List String) (pi : Bool) :
    ∀ (pre : List String) (bad : String) (rest : List String),
      (∀ raw ∈ pre, (env.parseReq raw).isSome) → env.parseReq bad = none →
      evalLoop env ignore pi (pre ++ bad :: rest) =
        .error (pre.flatMap (diagsFor env ignore pi)) := by
  intro pre
  induction pre with
  | nil => intro bad rest _ hbad; simp [evalLoop, hbad]
  | cons raw pre' ih =>
    intro bad rest h hbad
    obtain ⟨req, hp⟩ := Option.isSome_iff_exists.mp (h raw (List.mem_cons_self _ _))
    have hrec := ih bad rest (fun r hr => h r (List.mem_cons_of_mem _ hr)) hbad
    cases hc : ignore.contains (canonicalize_name req.name) with
    | true =>
      have hc' : canonicalize_name req.name ∈ ignore := by simpa using hc
      simp [evalLoop, hp, hc, hc', hrec, diagsFor, List.flatMap_cons]
    | false =>
      have hc' : canonicalize_name req.name ∉ ignore := by simpa using hc
      cases hm : marker_applies env req with
      | false => simp [evalLoop, hp, hc, hc', hm, hrec, diagsFor, List.flatMap_cons]
      | true => simp [evalLoop, hp, hc, hc', hm, hrec, diagsFor, List.flatMap_cons]

/-! ### Characterizing `main` -/

theorem main_eq_of_all_parse (env : Env) (args : Args)
    (hall : ∀ raw ∈ iter_declared_requirements args.pyproject args.extras,
      (env.parseReq raw).isSome) :
    missing_deps_main env args =
      .ok { stdout := List.insertionSort (keyLe env)
              ((iter_declared_requirements args.pyproject args.extras).filter
                (keeps env (buildIgnoreSet args)))
            stderr := (iter_declared_requirements args.pyproject args.extras).flatMap
              (diagsFor env (buildIgnoreSet args) args.printInstalled)
            exitCode := 0 } := by
  simp [missing_deps_main, evalLoop_ok_of_all_parse _ _ _ _ hall]

theorem main_ok_elim (env : Env) (args : Args) (out : Output)
    (h : missing_deps_main env args = .ok out) :
    (∀ raw ∈ iter_declared_requirements args.pyproject args.extras, (env.parseReq raw).isSome)
    ∧ out = { stdout := List.insertionSort (keyLe env)
                ((iter_declared_requirements args.pyproject args.extras).filter
                  (keeps env (buildIgnoreSet args)))
              stderr := (iter_declared_requirements args.pyproject args.extras).flatMap
                (diagsFor env (buildIgnoreSet args) args.printInstalled)
              exitCode := 0 } := by
  rcases evalLoop_cases env (buildIgnoreSet args) args.printInstalled
      (iter_declared_requirements args.pyproject args.extras) with hall | ⟨ds, hds⟩
  · refine ⟨hall, ?_⟩
    have heq := main_eq_of_all_parse env args hall
    rw [heq] at h
    injection h with h'
    exact h'.symm
  · rw [missing_deps_main] at h
    simp only [hds] at h
    cases h

theorem buildIgnoreSet_congr (args args' : Args) (h1 : args'.ignores = args.ignores)
    (h2 : args'.ignoreFile = args.ignoreFile) :
    buildIgnoreSet args' = buildIgnoreSet args := by
  simp [buildIgnoreSet, h1, h2]

/-! ### Characterizing the collector and the ignore-file loop -/

theorem foldl_extend_eq (f : String → List String) :
    ∀ (extras : List String) (init : List String),
      extras.foldl (fun reqs e => reqs ++ f e) init = init ++ extras.flatMap f := by
  intro extras
  induction extras with
  | nil => intro init; simp
  | cons e es ih =>
    intro init
    simp [List.foldl_cons, ih, List.flatMap_cons, List.append_assoc]

theorem iter_declared_eq (py : Pyproject) (extras : List String) :
    iter_declared_requirements py extras =
      ((py.project.getD ⟨none, none⟩).dependencies.getD []) ++
        extras.flatMap (fun e =>
          ((((py.project.getD ⟨none, none⟩).optionalDependencies.getD []).lookup e).getD [])) := by
  rw [iter_declared_requirements]
  exact foldl_extend_eq
    (fun e => ((((py.project.getD ⟨none, none⟩).optionalDependencies.getD []).lookup e).getD []))
    extras ((py.project.getD ⟨none, none⟩).dependencies.getD [])

theorem mem_ignoreFromLines : ∀ (lines : List String) (n : String),
    n ∈ ignoreFromLines lines ↔
      ∃ l ∈ lines, pyStrip l ≠ "" ∧ startsWithHash (pyStrip l) = false
        ∧ n = canonicalize_name (pyStrip l) := by
  intro lines
  induction lines with
  | nil => intro n; simp [ignoreFromLines]
  | cons line rest ih =>
    intro n
    by_cases hskip : pyStrip line = "" ∨ startsWithHash (pyStrip line) = true
    · rw [ignoreFromLines, if_pos hskip, ih]
      constructor
      · rintro ⟨l, hl, hcond⟩
        exact ⟨l, List.mem_cons_of_mem _ hl, hcond⟩
      · rintro ⟨l, hl, h1, h2, h3⟩
        rcases List.mem_cons.mp hl with rfl | hl'
        · rcases hskip with hs | hs
          · exact absurd hs h1
          · simp [hs] at h2
        · exact ⟨l, hl', h1, h2, h3⟩
    · rw [ignoreFromLines, if_neg hskip]
      push_neg at hskip
      obtain ⟨h1, h2⟩ := hskip
      have h2' : startsWithHash (pyStrip line) = false := by
        cases hsw : startsWithHash (pyStrip line)
        · rfl
        · exact absurd hsw h2
      constructor
      · intro hmem
        rcases List.mem_cons.mp hmem with heq | hmem'
        · exact ⟨line, List.mem_cons_self _ _, h1, h2', heq⟩
        · obtain ⟨l, hl, hc⟩ := (ih n).mp hmem'
          exact ⟨l, List.mem_cons_of_mem _ hl, hc⟩
      · rintro ⟨l, hl, hc1, hc2, hc3⟩
        rcases List.mem_cons.mp hl with rfl | hl'
        · subst hc3
          exact List.mem_cons_self _ _
        · exact List.mem_cons_of_mem _ ((ih n).mpr ⟨l, hl', hc1, hc2, hc3⟩)

/-! ### The claims -/

/-- C1: the "not installed" classification of an evaluated requirement depends
only on whether a distribution with the requirement's declared name is present
in the installed-distribution index: the loop step appends `raw` to the
missing list exactly when `installedVersion req.name` is absent, a name
installed at any version `v` is classified installed, and the classification
reads only the `name` field of the requirement — the specifier is never
consulted. -/
theorem installed_check_name_only (env : Env) (ignore : List String) (pi : Bool)
    (raw : String) (req : Requirement) (rest m d : List String)
    (hp : env.parseReq raw = some req)
    (hc : ignore.contains (canonicalize_name req.name) = false)
    (hm : marker_applies env req = true)
    (hrest : evalLoop env ignore pi rest = .ok (m, d)) :
    evalLoop env ignore pi (raw :: rest) =
      .ok ((if (env.installedVersion req.name).isSome then m else raw :: m),
        (if pi then [diagLine env req (env.installedVersion req.name).isSome] else []) ++ d)
    ∧ (∀ spec mk, is_installed env (Requirement.mk req.name spec mk).name
        = is_installed env req.name)
    ∧ (∀ v, env.installedVersion req.name = some v → is_installed env req.name = true)
    ∧ (env.installedVersion req.name = none → is_installed env req.name = false) := by
  have hc' : canonicalize_name req.name ∉ ignore := by simpa using hc
  refine ⟨?_, fun _ _ => rfl, ?_, ?_⟩
  · simp [evalLoop, hp, hc', hm, hrest, is_installed]
  · intro v hv; simp [is_installed, hv]
  · intro hv; simp [is_installed, hv]

theorem installed_check_name_only_witness :
    evalLoop envW ["foo-bar", "old"] true ["requests>=2.0"] =
      .ok (["requests>=2.0"], ["requests (missing)"]) :=
  (installed_check_name_only envW ["foo-bar", "old"] true "requests>=2.0"
    ⟨"requests", ">=2.0", none⟩ [] [] [] rfl rfl rfl rfl).1

/-- C2: on a successful run the stdout lines are exactly (a permutation of)
the missing raw requirement strings, sorted ascending by canonical package
name (`keyLe` compares `canonicalize_name` of the parsed name,
code-point-lexicographically); the stdout lines are unchanged by toggling
diagnostic mode; and for any command line with the same ignore inputs whose
collected requirement sequence is any permutation of this one, the stdout
lines are a permutation of these and again sorted — i.e. the sortedness of
the output does not depend on manifest declaration order. -/
theorem output_sorted_by_canonical_name (env : Env) (args : Args) (out : Output)
    (h : missing_deps_main env args = .ok out) :
    out.stdout.Perm ((iter_declared_requirements args.pyproject args.extras).filter
        (keeps env (buildIgnoreSet args)))
    ∧ List.Sorted (keyLe env) out.stdout
    ∧ (∀ s r, env.parseReq s = some r → sortKey env s = canonicalize_name r.name)
    ∧ (∀ b : Bool, ∃ out' : Output,
        missing_deps_main env { args with printInstalled := b } = .ok out'
        ∧ out'.stdout = out.stdout)
    ∧ (∀ (args' : Args) (out' : Output), args'.ignores = args.ignores →
        args'.ignoreFile = args.ignoreFile →
        (iter_declared_requirements args'.pyproject args'.extras).Perm
          (iter_declared_requirements args.pyproject args.extras) →
        missing_deps_main env args' = .ok out' →
        out'.stdout.Perm out.stdout ∧ List.Sorted (keyLe env) out'.stdout) := by
  obtain ⟨hall, hout⟩ := main_ok_elim env args out h
  subst hout
  refine ⟨List.perm_insertionSort _ _, List.sorted_insertionSort _ _, ?_, ?_, ?_⟩
  · intro s r hp; simp [sortKey, hp]
  · intro b
    exact ⟨_, main_eq_of_all_parse env { args with printInstalled := b } hall, rfl⟩
  · intro args' out' hig hif hperm h'
    obtain ⟨hall', hout'⟩ := main_ok_elim env args' out' h'
    subst hout'
    have hset : buildIgnoreSet args' = buildIgnoreSet args := buildIgnoreSet_congr _ _ hig hif
    refine ⟨?_, List.sorted_insertionSort _ _⟩
    refine (List.perm_insertionSort _ _).trans ?_
    rw [hset]
    exact (hperm.filter _).trans (List.perm_insertionSort _ _).symm

theorem output_sorted_witness :
    (⟨["requests>=2.0"], ["requests (missing)", "rich==13.7.1 (installed)"], 0⟩ :
        Output).stdout.Perm
      (⟨["requests>=2.0"], ["rich==13.7.1 (installed)", "requests (missing)"], 0⟩ :
        Output).stdout
    ∧ List.Sorted (keyLe envW)
      (⟨["requests>=2.0"], ["requests (missing)", "rich==13.7.1 (installed)"], 0⟩ :
        Output).stdout :=
  (output_sorted_by_canonical_name envW argsW
      ⟨["requests>=2.0"], ["rich==13.7.1 (installed)", "requests (missing)"], 0⟩ rfl).2.2.2.2
    argsW2 ⟨["requests>=2.0"], ["requests (missing)", "rich==13.7.1 (installed)"], 0⟩
    rfl rfl (by decide) rfl

/-- C3: a requirement whose canonical name is in the ignore set never appears
on stdout (regardless of installation status), and every stderr line was
produced by a requirement whose canonical name is not in the ignore set. -/
theorem ignored_never_in_output (env : Env) (args : Args) (out : Output)
    (h : missing_deps_main env args = .ok out) :
    (∀ raw r, env.parseReq raw = some r →
        (buildIgnoreSet args).contains (canonicalize_name r.name) = true →
        raw ∉ out.stdout)
    ∧ (∀ d ∈ out.stderr,
        ∃ raw ∈ iter_declared_requirements args.pyproject args.extras, ∃ r,
          env.parseReq raw = some r
          ∧ (buildIgnoreSet args).contains (canonicalize_name r.name) = false
          ∧ marker_applies env r = true
          ∧ d = diagLine env r (is_installed env r.name)) := by
  obtain ⟨hall, hout⟩ := main_ok_elim env args out h
  subst hout
  constructor
  · intro raw r hp hmem hin
    have hmem' : canonicalize_name r.name ∈ buildIgnoreSet args := by simpa using hmem
    have h1 := (List.perm_insertionSort (keyLe env) _).mem_iff.mp hin
    have h2 := (List.mem_filter.mp h1).2
    simp [keeps, hp, hmem'] at h2
  · intro d hd
    obtain ⟨raw, hraw, hin⟩ := List.mem_flatMap.mp hd
    cases hp : env.parseReq raw with
    | none => simp [diagsFor, hp] at hin
    | some r =>
      cases hc : (buildIgnoreSet args).contains (canonicalize_name r.name) with
      | true =>
        have hc' : canonicalize_name r.name ∈ buildIgnoreSet args := by simpa using hc
        simp [diagsFor, hp, hc'] at hin
      | false =>
        have hc' : canonicalize_name r.name ∉ buildIgnoreSet args := by simpa using hc
        cases hm : marker_applies env r with
        | false => simp [diagsFor, hp, hc', hm] at hin
        | true =>
          cases hpi : args.printInstalled with
          | false => simp [diagsFor, hp, hc', hm, hpi] at hin
          | true =>
            refine ⟨raw, hraw, r, hp, hc, hm, ?_⟩
            simpa [diagsFor, hp, hc', hm, hpi] using hin

theorem ignored_never_in_output_witness :
    "Foo_Bar==1.0" ∉
      (⟨["requests>=2.0"], ["rich==13.7.1 (installed)", "requests (missing)"], 0⟩ :
        Output).stdout :=
  (ignored_never_in_output envW argsW
      ⟨["requests>=2.0"], ["rich==13.7.1 (installed)", "requests (missing)"], 0⟩ rfl).1
    "Foo_Bar==1.0" ⟨"Foo_Bar", "==1.0", none⟩ rfl rfl

/-- C4: a requirement with no marker is treated as applicable; a requirement
whose marker evaluates false in the current environment never appears on
stdout (even when not installed), and every stderr line was produced by a
requirement whose marker applies. -/
theorem marker_false_skipped (env : Env) (args : Args) (out : Output)
    (h : missing_deps_main env args = .ok out) :
    (∀ r : Requirement, r.marker = none → marker_applies env r = true)
    ∧ (∀ raw r mk, env.parseReq raw = some r → r.marker = some mk →
        env.evalMarker mk = false → raw ∉ out.stdout)
    ∧ (∀ d ∈ out.stderr,
        ∃ raw ∈ iter_declared_requirements args.pyproject args.extras, ∃ r,
          env.parseReq raw = some r ∧ marker_applies env r = true
          ∧ d = diagLine env r (is_installed env r.name)) := by
  obtain ⟨hall, hout⟩ := main_ok_elim env args out h
  subst hout
  refine ⟨fun r hr => by simp [marker_applies, hr], ?_, ?_⟩
  · intro raw r mk hp hmk hev hin
    have h1 := (List.perm_insertionSort (keyLe env) _).mem_iff.mp hin
    have h2 := (List.mem_filter.mp h1).2
    simp [keeps, hp, marker_applies, hmk, hev] at h2
  · intro d hd
    obtain ⟨raw, hraw, hin⟩ := List.mem_flatMap.mp hd
    cases hp : env.parseReq raw with
    | none => simp [diagsFor, hp] at hin
    | some r =>
      cases hc : (buildIgnoreSet args).contains (canonicalize_name r.name) with
      | true =>
        have hc' : canonicalize_name r.name ∈ buildIgnoreSet args := by simpa using hc
        simp [diagsFor, hp, hc'] at hin
      | false =>
        have hc' : canonicalize_name r.name ∉ buildIgnoreSet args := by simpa using hc
        cases hm : marker_applies env r with
        | false => simp [diagsFor, hp, hc', hm] at hin
        | true =>
          cases hpi : args.printInstalled with
          | false => simp [diagsFor, hp, hc', hm, hpi] at hin
          | true =>
            refine ⟨raw, hraw, r, hp, hm, ?_⟩
            simpa [diagsFor, hp, hc', hm, hpi] using hin

theorem marker_false_skipped_witness :
    "legacy; python_version < \"3.0\"" ∉
      (⟨["requests>=2.0"], ["rich==13.7.1 (installed)", "requests (missing)"], 0⟩ :
        Output).stdout :=
  (marker_false_skipped envW argsW
      ⟨["requests>=2.0"], ["rich==13.7.1 (installed)", "requests (missing)"], 0⟩ rfl).2.1
    "legacy; python_version < \"3.0\"" ⟨"legacy", "", some "python_version < \"3.0\""⟩
    "python_version < \"3.0\"" rfl rfl rfl

/-- C5: the collected requirement sequence is the base dependency list
followed by each requested group's list in request order (duplicated group
names are simply reprocessed, being ordinary list elements), and a requested
group absent from the optional-dependencies mapping contributes zero entries
wherever it occurs — with no error, since the collector is a total
function. -/
theorem collector_concatenation (py : Pyproject) (extras : List String) :
    iter_declared_requirements py extras =
      ((py.project.getD ⟨none, none⟩).dependencies.getD []) ++
        extras.flatMap (fun e =>
          ((((py.project.getD ⟨none, none⟩).optionalDependencies.getD []).lookup e).getD []))
    ∧ (∀ e, (((py.project.getD ⟨none, none⟩).optionalDependencies.getD []).lookup e) = none →
        ∀ pre post : List String, iter_declared_requirements py (pre ++ e :: post) =
          iter_declared_requirements py (pre ++ post)) := by
  refine ⟨iter_declared_eq py extras, ?_⟩
  intro e he pre post
  rw [iter_declared_eq, iter_declared_eq]
  simp [List.flatMap_append, List.flatMap_cons, he]

theorem collector_concatenation_witness :
    iter_declared_requirements argsW.pyproject (["dev"] ++ "missing-group" :: []) =
      iter_declared_requirements argsW.pyproject (["dev"] ++ []) :=
  (collector_concatenation argsW.pyproject ["dev"]).2 "missing-group" rfl ["dev"] []

/-- C6: every stdout line is, character for character, one of the raw
requirement strings of the collected manifest sequence — the tool never
synthesizes or rewrites an emitted requirement string. -/
theorem output_lines_verbatim (env : Env) (args : Args) (out : Output)
    (h : missing_deps_main env args = .ok out) :
    ∀ s ∈ out.stdout, s ∈ iter_declared_requirements args.pyproject args.extras := by
  obtain ⟨hall, hout⟩ := main_ok_elim env args out h
  subst hout
  intro s hs
  have h1 := (List.perm_insertionSort (keyLe env) _).mem_iff.mp hs
  exact (List.mem_filter.mp h1).1

theorem output_lines_verbatim_witness :
    "requests>=2.0" ∈ iter_declared_requirements argsW.pyproject argsW.extras :=
  output_lines_verbatim envW argsW
    ⟨["requests>=2.0"], ["rich==13.7.1 (installed)", "requests (missing)"], 0⟩ rfl
    "requests>=2.0" (by simp)

/-- C7: a malformed requirement string in the collected sequence aborts the
whole run: `main` raises (the error value carries only the diagnostics of the
entries before the bad one, so later entries are never evaluated), the
process exits nonzero, and nothing is written to stdout. -/
theorem parse_error_aborts (env : Env) (args : Args) (pre : List String) (bad : String)
    (rest : List String)
    (hsplit : iter_declared_requirements args.pyproject args.extras = pre ++ bad :: rest)
    (hpre : ∀ raw ∈ pre, (env.parseReq raw).isSome)
    (hbad : env.parseReq bad = none) :
    missing_deps_main env args =
      .error (pre.flatMap (diagsFor env (buildIgnoreSet args) args.printInstalled))
    ∧ (run env args).stdout = []
    ∧ (run env args).exitCode = 1 := by
  have hloop := evalLoop_error_append env (buildIgnoreSet args) args.printInstalled
    pre bad rest hpre hbad
  have hmain : missing_deps_main env args =
      .error (pre.flatMap (diagsFor env (buildIgnoreSet args) args.printInstalled)) := by
    rw [missing_deps_main]
    simp only [hsplit, hloop]
  exact ⟨hmain, by simp [run, hmain], by simp [run, hmain]⟩

theorem parse_error_aborts_witness :
    missing_deps_main envW argsE = .error ["rich==13.7.1 (installed)"]
    ∧ (run envW argsE).stdout = [] ∧ (run envW argsE).exitCode = 1 :=
  parse_error_aborts envW argsE ["rich"] "bad((" [] rfl (by decide) rfl

/-- C8: with an ignore file given, the ignore set holds exactly the
canonicalized CLI-supplied names together with the canonicalized stripped
file lines, excluding lines that are empty after stripping and lines whose
first non-whitespace character is `#`. -/
theorem ignore_set_contents (args : Args) (lines : List String)
    (hf : args.ignoreFile = some lines) :
    ∀ n, n ∈ buildIgnoreSet args ↔
      ((∃ x ∈ args.ignores, n = canonicalize_name x)
        ∨ (∃ l ∈ lines, pyStrip l ≠ "" ∧ startsWithHash (pyStrip l) = false
            ∧ n = canonicalize_name (pyStrip l))) := by
  intro n
  simp only [buildIgnoreSet, hf, List.mem_append]
  apply or_congr
  · rw [List.mem_map]
    constructor
    · rintro ⟨x, hx, hxe⟩; exact ⟨x, hx, hxe.symm⟩
    · rintro ⟨x, hx, hxe⟩; exact ⟨x, hx, hxe.symm⟩
  · exact mem_ignoreFromLines lines n

theorem ignore_set_contents_witness :
    "old" ∈ buildIgnoreSet argsW ↔
      ((∃ x ∈ argsW.ignores, "old" = canonicalize_name x)
        ∨ (∃ l ∈ ["  # comment", "   ", "old"], pyStrip l ≠ ""
            ∧ startsWithHash (pyStrip l) = false
            ∧ "old" = canonicalize_name (pyStrip l))) :=
  ignore_set_contents argsW ["  # comment", "   ", "old"] rfl "old"

/-- C9: whenever execution completes without raising, the exit code is 0
(also for an empty missing list), and a manifest with an empty base
dependency list and no requested extras yields empty output, empty
diagnostics and exit code 0 in every environment. -/
theorem completion_exit_zero (env : Env) (args : Args) (out : Output)
    (h : missing_deps_main env args = .ok out) :
    out.exitCode = 0 ∧ run env args = out
    ∧ (∀ (env' : Env) (args' : Args),
        (args'.pyproject.project.getD ⟨none, none⟩).dependencies.getD [] = [] →
        args'.extras = [] →
        missing_deps_main env' args' = .ok { stdout := [], stderr := [], exitCode := 0 }) := by
  obtain ⟨hall, hout⟩ := main_ok_elim env args out h
  refine ⟨by rw [hout], by simp [run, h], ?_⟩
  intro env' args' hbase hextras
  have hdecl : iter_declared_requirements args'.pyproject args'.extras = [] := by
    rw [iter_declared_eq, hextras, hbase]
    rfl
  have heq := main_eq_of_all_parse env' args' (by simp [hdecl])
  rw [hdecl] at heq
  simpa [List.insertionSort] using heq

theorem completion_exit_zero_witness :
    run envW argsW =
      ⟨["requests>=2.0"], ["rich==13.7.1 (installed)", "requests (missing)"], 0⟩
    ∧ missing_deps_main envW argsEmpty = .ok ⟨[], [], 0⟩ :=
  ⟨(completion_exit_zero envW argsW
      ⟨["requests>=2.0"], ["rich==13.7.1 (installed)", "requests (missing)"], 0⟩ rfl).2.1,
    (completion_exit_zero envW argsW
      ⟨["requests>=2.0"], ["rich==13.7.1 (installed)", "requests (missing)"], 0⟩ rfl).2.2
      envW argsEmpty rfl rfl⟩

/-- C10: a manifest mapping without a `project` table, or whose project table
lacks the `dependencies` or the `optional-dependencies` key, collects exactly
as if those were present and empty, and contributes zero entries; the
collector is a total function, so no error is possible. -/
theorem missing_keys_default_empty (extras : List String) (dep : Option (List String))
    (od : Option (List (String × List String))) :
    iter_declared_requirements ⟨none⟩ extras =
        iter_declared_requirements ⟨some ⟨some [], some []⟩⟩ extras
    ∧ iter_declared_requirements ⟨some ⟨none, od⟩⟩ extras =
        iter_declared_requirements ⟨some ⟨some [], od⟩⟩ extras
    ∧ iter_declared_requirements ⟨some ⟨dep, none⟩⟩ extras =
        iter_declared_requirements ⟨some ⟨dep, some []⟩⟩ extras
    ∧ iter_declared_requirements ⟨none⟩ extras = [] := by
  refine ⟨rfl, rfl, rfl, ?_⟩
  rw [iter_declared_eq]
  simp

end MissingDeps
